import Mathlib

/-!
Verification development for the Google Search Console n8n node
(source: `src/nodes/GoogleSearchConsole/GoogleSearchConsole.node.ts`,
the current version, i.e. the part of the file declaring `fetchAllRows`,
`toGscDate`, `defaultedRange`, `rangeFromPreset`, `daysInclusive`,
`shiftDays`, `shiftYears`, `buildCompareRanges`, `keyFromRow`,
`rowsToMap` and `execute` with `comparePageInsights`).

Modeling conventions, used throughout:

* The host is assumed to run with a UTC local timezone, so the local-time
  accessors of JS `Date` (`getDate`, `getMonth`, `getFullYear`, `setDate`,
  `setMonth`, `setFullYear`) agree with the UTC calendar fields.
* All date values in this code are at whole-day granularity (date-only
  ISO strings parse to UTC midnight, and every arithmetic step moves by
  whole days), so a valid JS `Date` is modeled as a calendar date
  (`Civil`); an Invalid Date is `Option.none`; a thrown `RangeError`
  (from `toISOString()` on an Invalid Date) is `Except.error`.
* JS `new Date(string)` is modeled for date-only `YYYY-MM-DD` strings
  (`parseIso`); every date string this code produces, and every string the
  claims mention, is either of that shape or unparseable in JS as well.
* JS numbers carried by rows are modeled as rationals (`Rat`); the metric
  arithmetic performed by the code is subtraction only.
* The remote query endpoint is an injected capability
  (`Nat → Except String (List GscQueryRow)`, indexed by `startRow`), and
  the ambient clock (`new Date()`) is an explicit `today : Civil`
  parameter.
-/

namespace GSC

/- ===== Calendar layer: proleptic Gregorian dates ===== -/

/-- Leap-year test of the proleptic Gregorian calendar (as used by JS
`Date`). -/
def isLeap (y : Int) : Bool :=
  (y % 4 == 0 && y % 100 != 0) || y % 400 == 0

/-- Number of days of month `m` (1-12) in year `y`. -/
def daysInMonth (y : Int) : Nat → Nat
  | 2 => if isLeap y then 29 else 28
  | 4 | 6 | 9 | 11 => 30
  | _ => 31

/-- A calendar date: the UTC day of a JS `Date` value. -/
structure Civil where
  year : Int
  month : Nat
  day : Nat
deriving DecidableEq, Repr

/-- The date exists in the proleptic Gregorian calendar. -/
def Civil.Ok (c : Civil) : Prop :=
  1 ≤ c.month ∧ c.month ≤ 12 ∧ 1 ≤ c.day ∧ c.day ≤ daysInMonth c.year c.month

instance (c : Civil) : Decidable c.Ok :=
  inferInstanceAs (Decidable (_ ∧ _ ∧ _ ∧ _))

/-- The calendar day after `c`. -/
def nextDay (c : Civil) : Civil :=
  if c.day < daysInMonth c.year c.month then ⟨c.year, c.month, c.day + 1⟩
  else if c.month < 12 then ⟨c.year, c.month + 1, 1⟩
  else ⟨c.year + 1, 1, 1⟩

/-- The calendar day before `c`. -/
def prevDay (c : Civil) : Civil :=
  if 1 < c.day then ⟨c.year, c.month, c.day - 1⟩
  else if 1 < c.month then ⟨c.year, c.month - 1, daysInMonth c.year (c.month - 1)⟩
  else ⟨c.year - 1, 12, 31⟩

/-- `c` shifted by `k` calendar days: the UTC day of a JS date moved by
`k * 86400000` milliseconds. -/
def addDays (c : Civil) (k : Int) : Civil :=
  match k with
  | Int.ofNat n => nextDay^[n] c
  | Int.negSucc n => prevDay^[n + 1] c

/-- Days-in-year before the first of month `m` in a non-leap year. -/
def daysToMonth : Nat → Int
  | 1 => 0
  | 2 => 31
  | 3 => 59
  | 4 => 90
  | 5 => 120
  | 6 => 151
  | 7 => 181
  | 8 => 212
  | 9 => 243
  | 10 => 273
  | 11 => 304
  | _ => 334

/-- Epoch-day number of a civil date: models `Date.UTC(y, m - 1, d)`
divided by 86400000 (the standard proleptic-Gregorian day count, offset
so that 1970-01-01 is day 0; floor divisions written as Euclidean
divisions, which coincide for the positive divisors used). -/
def civilToDays (c : Civil) : Int :=
  365 * (c.year - 1) + (c.year - 1) / 4 - (c.year - 1) / 100
    + (c.year - 1) / 400 + daysToMonth c.month
    + (if 2 < c.month ∧ isLeap c.year = true then 1 else 0)
    + (c.day : Int) - 719163

/- ===== Date strings ===== -/

/-- The decimal digit character for `n ≤ 9`. -/
def digitChar (n : Nat) : Char := Char.ofNat (48 + n)

/-- Two-digit zero-padded decimal form of `n < 100`. -/
def pad2 (n : Nat) : List Char := [digitChar (n / 10), digitChar (n % 10)]

/-- Four-digit zero-padded decimal form of `n < 10000`. -/
def pad4 (n : Nat) : List Char :=
  [digitChar (n / 1000), digitChar (n / 100 % 10), digitChar (n / 10 % 10), digitChar (n % 10)]

/-- Format a civil date as a `YYYY-MM-DD` string: the date part of JS
`Date.prototype.toISOString()` (exact for years 0-9999, the range in which
`toISOString` uses the plain four-digit form). -/
def isoOfCivil (c : Civil) : String :=
  String.mk (pad4 c.year.toNat ++ '-' :: (pad2 c.month ++ '-' :: pad2 c.day))

/-- Decimal value of a digit character. -/
def digitVal (ch : Char) : Option Nat :=
  if 48 ≤ ch.toNat ∧ ch.toNat ≤ 57 then some (ch.toNat - 48) else none

/-- Model of JS `new Date(s)` at day granularity: parse a `YYYY-MM-DD`
string into a civil date; `none` is an Invalid Date (out-of-range
components make the ISO parse fail in JS, e.g. `2024-02-30`). -/
def parseIso (s : String) : Option Civil :=
  match s.data with
  | [y1, y2, y3, y4, s1, m1, m2, s2, d1, d2] =>
    if s1 = '-' ∧ s2 = '-' then
      match digitVal y1, digitVal y2, digitVal y3, digitVal y4,
            digitVal m1, digitVal m2, digitVal d1, digitVal d2 with
      | some a, some b, some c, some d, some e, some f, some g, some h =>
        let y : Nat := 1000 * a + 100 * b + 10 * c + d
        let mo : Nat := 10 * e + f
        let da : Nat := 10 * g + h
        if 1 ≤ mo ∧ mo ≤ 12 ∧ 1 ≤ da ∧ da ≤ daysInMonth (y : Int) mo
        then some ⟨(y : Int), mo, da⟩ else none
      | _, _, _, _, _, _, _, _ => none
    else none
  | _ => none

/- ===== JS Date mutators (day granularity, UTC) ===== -/

/-- JS `d.setDate(v)`: the day-of-month is set to `v` and out-of-range
values roll over into adjacent months (the date becomes the first of the
current month plus `v - 1` days). -/
def jsSetDate (c : Civil) (v : Int) : Civil :=
  addDays ⟨c.year, c.month, 1⟩ (v - 1)

/-- JS `d.setMonth(mi)` (`mi` is the 0-based month index, possibly
negative or ≥ 12): the month is normalized into the year with floor
semantics and the kept day-of-month rolls over if the target month is
shorter. -/
def jsSetMonth (c : Civil) (mi : Int) : Civil :=
  let t : Int := c.year * 12 + mi
  addDays ⟨t / 12, (t % 12).toNat + 1, 1⟩ ((c.day : Int) - 1)

/-- JS `d.setFullYear(v)`: keep month and day-of-month; a Feb 29 mapped
into a non-leap year rolls over to Mar 1. -/
def jsSetFullYear (c : Civil) (v : Int) : Civil :=
  addDays ⟨v, c.month, 1⟩ ((c.day : Int) - 1)

/- ===== The source's date helpers ===== -/

/-- `toGscDate` from the source: empty or unparseable input yields the
empty string, otherwise the `YYYY-MM-DD` date part of the parsed date
(`dt.toISOString().split('T')[0]`). -/
def toGscDate (d : String) : String :=
  if d = "" then ""
  else
    match parseIso d with
    | none => ""
    | some c => isoOfCivil c

/-- A `{ startDate, endDate }` pair as produced by the range helpers. -/
structure GscRange where
  startDate : String
  endDate : String
deriving DecidableEq, Repr

/-- `defaultedRange` from the source. `none` models a missing (undefined)
argument, `some ""` an empty string (the n8n parameter default); `today`
is the ambient `new Date()`. The `.error` case models the `RangeError`
thrown by `startDt.toISOString()` when `start` is nullish and `startDt`
is an Invalid Date; `toGscDate` applied to the `toISOString()` of a valid
date is written directly as `isoOfCivil`. -/
def defaultedRange (today : Civil) (startArg endArg : Option String) : Except String GscRange :=
  let endDt : Option Civil :=
    match endArg with
    | some s => if s = "" then some today else parseIso s
    | none => some today
  let startDt : Option Civil :=
    match startArg with
    | some s => if s = "" then endDt.map (fun c => addDays c (-28)) else parseIso s
    | none => endDt.map (fun c => addDays c (-28))
  let endStr : String :=
    match endArg with
    | some e => toGscDate e
    | none => isoOfCivil today
  match startArg with
  | some s => .ok ⟨toGscDate s, endStr⟩
  | none =>
    match startDt with
    | none => .error ("Invalid time value")
    | some c => .ok ⟨isoOfCivil c, endStr⟩

/-- `rangeFromPreset` from the source (the unused `start` local of the
source is not modeled; the `.error` case is the `RangeError` thrown by
`toISOString()` on an Invalid Date in the non-custom branch). -/
def rangeFromPreset (today : Civil) (mode : String) (customStart customEnd : Option String) : Except String GscRange :=
  let endJs : Option Civil :=
    match customEnd with
    | some s => if s = "" then some today else parseIso s
    | none => some today
  if mode = "custom" then defaultedRange today customStart customEnd
  else
    match endJs with
    | none => .error ("Invalid time value")
    | some e =>
      let s : Civil :=
        if mode = "last7d" then jsSetDate e ((e.day : Int) - 7)
        else if mode = "last28d" then jsSetDate e ((e.day : Int) - 28)
        else if mode = "last3mo" then jsSetMonth e (((e.month : Int) - 1) - 3)
        else if mode = "last12mo" then jsSetMonth e (((e.month : Int) - 1) - 12)
        else jsSetDate e ((e.day : Int) - 28)
      .ok ⟨isoOfCivil s, isoOfCivil e⟩

/-- `daysInclusive` from the source; `none` models the `NaN` produced on
unparseable inputs (`Date.UTC` of the local calendar fields reduces to
the epoch-day difference under the UTC-timezone assumption). -/
def daysInclusive (a b : String) : Option Int :=
  match parseIso a, parseIso b with
  | some ca, some cb => some (civilToDays cb - civilToDays ca + 1)
  | _, _ => none

/-- `shiftDays` from the source with a possibly-`NaN` day count:
`d.setDate(d.getDate() + days)` then `toGscDate(d.toISOString())`, which
throws a `RangeError` when the date is invalid or `days` is `NaN`. -/
def shiftDaysN (dstr : String) (days : Option Int) : Except String String :=
  match parseIso dstr, days with
  | some c, some k => .ok (isoOfCivil (jsSetDate c ((c.day : Int) + k)))
  | _, _ => .error ("Invalid time value")

/-- `shiftDays` from the source. -/
def shiftDays (dstr : String) (days : Int) : Except String String :=
  shiftDaysN dstr (some days)

/-- `shiftYears` from the source: `d.setFullYear(d.getFullYear() + years)`
then `toGscDate(d.toISOString())`. -/
def shiftYears (dstr : String) (years : Int) : Except String String :=
  match parseIso dstr with
  | some c => .ok (isoOfCivil (jsSetFullYear c (c.year + years)))
  | none => .error ("Invalid time value")

/-- The `customB` argument of `buildCompareRanges` (fields `mode`,
`start`, `end` of the source, each possibly undefined). -/
structure CustomCompare where
  mode : Option String
  start : Option String
  endVal : Option String
deriving Repr

/-- The `{ rangeA, rangeB }` result of `buildCompareRanges`. -/
structure CompareRanges where
  rangeA : GscRange
  rangeB : GscRange
deriving DecidableEq, Repr

/-- `buildCompareRanges` from the source. -/
def buildCompareRanges (today : Civil) (mode : String) (rangeA : GscRange) (customB : Option CustomCompare) : Except String CompareRanges :=
  if mode = "prevPeriod" then
    let dur : Option Int := daysInclusive rangeA.startDate rangeA.endDate
    match shiftDays rangeA.startDate (-1) with
    | .error e => .error e
    | .ok endB =>
      match shiftDaysN endB (dur.map (fun x => -(x - 1))) with
      | .error e => .error e
      | .ok startB => .ok ⟨rangeA, ⟨startB, endB⟩⟩
  else if mode = "prevYear" then
    match shiftYears rangeA.startDate (-1) with
    | .error e => .error e
    | .ok startB =>
      match shiftYears rangeA.endDate (-1) with
      | .error e => .error e
      | .ok endB => .ok ⟨rangeA, ⟨startB, endB⟩⟩
  else
    let m : String :=
      match customB with
      | some cb =>
        match cb.mode with
        | some ms => if ms = "" then "last28d" else ms
        | none => "last28d"
      | none => "last28d"
    match rangeFromPreset today m (customB.bind (fun cb => cb.start)) (customB.bind (fun cb => cb.endVal)) with
    | .error e => .error e
    | .ok r => .ok ⟨rangeA, ⟨r.startDate, r.endDate⟩⟩

/- ===== Paginated fetcher ===== -/

/-- A Search Analytics row (`GscQueryRow` of the source): the optional
`keys` array plus the four metrics; JS numbers are modeled as rationals. -/
structure GscQueryRow where
  keys : Option (List String)
  clicks : Rat
  impressions : Rat
  ctr : Rat
  position : Rat
deriving DecidableEq, Repr

/-- One remote `searchAnalytics.query` page request, indexed by the
`startRow` offset: it yields the response's `rows` (an absent or
non-array field is already folded to `[]`, as the source does), or a
transport/auth error (a thrown exception). -/
abbrev Remote := Nat → Except String (List GscQueryRow)

/-- The `while` loop of `fetchAllRows`, with explicit fuel (structural
recursion); `none` means the fuel ran out before the loop exited, which
never happens for the fuel `fetchAllRows` supplies (theorem `c9_...`).
The second component counts the page requests issued. -/
def fetchLoop (remote : Remote) (perRequest targetLimit : Nat) : Nat → List GscQueryRow → Nat → Option (Except String (List GscQueryRow) × Nat)
  | 0, _, _ => none
  | fuel + 1, rows, startRow =>
    if targetLimit ≤ rows.length then some (.ok rows, 0)
    else
      match remote startRow with
      | .error e => some (.error e, 1)
      | .ok chunk =>
        if chunk.length = 0 then some (.ok rows, 1)
        else
          let rows2 := rows ++ chunk
          if chunk.length < perRequest then some (.ok rows2, 1)
          else if targetLimit ≤ rows2.length then some (.ok rows2, 1)
          else
            match fetchLoop remote perRequest targetLimit fuel rows2 (startRow + chunk.length) with
            | none => none
            | some (r, n) => some (r, n + 1)

/-- `fetchAllRows` from the source: clamp the per-page size
(`Math.max(100, Math.min(body.rowLimit ?? 1000, 25000))`), loop from an
empty accumulator at offset 0, and `slice(0, targetLimit)` the result. -/
def fetchAllRows (remote : Remote) (bodyRowLimit : Option Nat) (targetLimit : Nat) : Option (Except String (List GscQueryRow) × Nat) :=
  let perRequest := max 100 (min (bodyRowLimit.getD 1000) 25000)
  match fetchLoop remote perRequest targetLimit (targetLimit + 1) [] 0 with
  | none => none
  | some (.ok rows, n) => some (.ok (rows.take targetLimit), n)
  | some (.error e, n) => some (.error e, n)

/-- Output object of `mapRow`: one (dimension name, value) pair per
requested dimension (`none` when `keys` has no entry at that index, i.e.
JS `undefined`), plus the four metrics. -/
structure MappedRow where
  dims : List (String × Option String)
  clicks : Rat
  impressions : Rat
  ctr : Rat
  position : Rat
deriving DecidableEq, Repr

/-- `mapRow` from the source: the dimension pairs are only produced when
`keys` is an array. -/
def mapRow (dimensions : List String) (row : GscQueryRow) : MappedRow :=
  let pairs : List (String × Option String) :=
    match row.keys with
    | some ks => (dimensions.enum).map (fun p => (p.2, ks.get? p.1))
    | none => []
  ⟨pairs, row.clicks, row.impressions, row.ctr, row.position⟩

/-- One emitted n8n item: a mapped row pushed by `pushOk`, or the error
object pushed by `pushErr` under continue-on-failure. -/
inductive ItemOut where
  | row (r : MappedRow)
  | err (msg : String)
deriving DecidableEq, Repr

/-- The per-item behavior of `execute` around one paginated query: fetch,
emit one item per row; a thrown error reaches the `catch` and `pushErr`
either records it as the single error item (continue-on-failure) or
rethrows it. The unreachable out-of-fuel case is mapped to an error
marker. -/
def runQueryItem (continueOnFail : Bool) (remote : Remote) (bodyRowLimit : Option Nat) (targetLimit : Nat) (dimensions : List String) : Except String (List ItemOut) :=
  match fetchAllRows remote bodyRowLimit targetLimit with
  | some (.ok rows, _) => .ok (rows.map (fun r => ItemOut.row (mapRow dimensions r)))
  | some (.error e, _) => if continueOnFail then .ok [ItemOut.err e] else .error e
  | none => .error ("fuel exhausted")

/- ===== Row join ===== -/

/-- JS `Array.prototype.join('||')`. -/
def joinKeys : List String → String
  | [] => ""
  | [k] => k
  | k :: k2 :: rest => k ++ "||" ++ joinKeys (k2 :: rest)

/-- `keyFromRow` from the source: `(row.keys ?? []).join('||')`; the
`dimensions` argument is unused, exactly as in the source. -/
def keyFromRow (dimensions : List String) (row : GscQueryRow) : String :=
  joinKeys (row.keys.getD [])

/-- JS `Map.prototype.set` on an insertion-ordered association list: an
existing key keeps its position and gets the new value, a new key is
appended. -/
def mapSet (m : List (String × GscQueryRow)) (k : String) (v : GscQueryRow) : List (String × GscQueryRow) :=
  match m with
  | [] => [(k, v)]
  | (k2, v2) :: t => if k2 = k then (k2, v) :: t else (k2, v2) :: mapSet t k v

/-- JS `Map.prototype.get`. -/
def mapGet (m : List (String × GscQueryRow)) (k : String) : Option GscQueryRow :=
  match m with
  | [] => none
  | (k2, v2) :: t => if k2 = k then some v2 else mapGet t k

/-- JS `Map.prototype.keys()` (insertion order). -/
def mapKeys (m : List (String × GscQueryRow)) : List String := m.map (fun p => p.1)

/-- `rowsToMap` from the source. -/
def rowsToMap (rows : List GscQueryRow) (dims : List String) : List (String × GscQueryRow) :=
  rows.foldl (fun m r => mapSet m (keyFromRow dims r) r) []

/-- First-occurrence deduplication with an accumulator of already-seen
keys: the iteration order of a JS `Set` built from a list. -/
def dedupFirst (seen : List String) : List String → List String
  | [] => []
  | a :: t => if a ∈ seen then dedupFirst seen t else a :: dedupFirst (a :: seen) t

/-- JS `new Set([...la, ...lb])` in iteration order. -/
def setUnion (la lb : List String) : List String := dedupFirst [] (la ++ lb)

/-- One output object of the `comparePageInsights` per-key loop. -/
structure ComparisonRecord where
  dims : List (String × String)
  clicks_a : Rat
  clicks_b : Rat
  clicks_diff : Rat
  impr_a : Rat
  impr_b : Rat
  impr_diff : Rat
  ctr_a : Rat
  ctr_b : Rat
  ctr_diff : Rat
  pos_a : Rat
  pos_b : Rat
  pos_diff : Rat
  range_a : GscRange
  range_b : GscRange
  compare_mode : String
deriving DecidableEq, Repr

/-- `emptyFrom` from the source: a synthetic zero-valued row keeping the
given dimension values. -/
def emptyFrom (keys : Option (List String)) : GscQueryRow :=
  ⟨some (keys.getD []), 0, 0, 0, 0⟩

/-- The dimension-name/value pairs of one output record:
`(valsA.keys ?? valsB.keys ?? []).forEach((v, idx) => out[dims[idx]] = v)`. -/
def dimPairs (dims ks : List String) : List (String × String) :=
  (ks.enum).map (fun p => (dims.getD p.1 ("undefined"), p.2))

/-- The body of the `for (const k of allKeys)` loop of
`comparePageInsights` in `execute`. -/
def buildRecord (dims : List String) (rangeA rangeB : GscRange) (compareMode : String)
    (mapA mapB : List (String × GscQueryRow)) (k : String) : ComparisonRecord :=
  let ra := mapGet mapA k
  let rb := mapGet mapB k
  let valsA := ra.getD (emptyFrom ((ra.bind GscQueryRow.keys).orElse (fun _ => rb.bind GscQueryRow.keys)))
  let valsB := rb.getD (emptyFrom ((rb.bind GscQueryRow.keys).orElse (fun _ => ra.bind GscQueryRow.keys)))
  let ks : List String := ((valsA.keys).orElse (fun _ => valsB.keys)).getD []
  { dims := dimPairs dims ks
  , clicks_a := valsA.clicks, clicks_b := valsB.clicks
  , clicks_diff := valsA.clicks - valsB.clicks
  , impr_a := valsA.impressions, impr_b := valsB.impressions
  , impr_diff := valsA.impressions - valsB.impressions
  , ctr_a := valsA.ctr, ctr_b := valsB.ctr
  , ctr_diff := valsA.ctr - valsB.ctr
  , pos_a := valsA.position, pos_b := valsB.position
  , pos_diff := valsA.position - valsB.position
  , range_a := rangeA, range_b := rangeB, compare_mode := compareMode }

/-- The `comparePageInsights` join of `execute`: build both maps, then one
`ComparisonRecord` per key of `new Set([...mapA.keys(), ...mapB.keys()])`
in iteration order. -/
def joinRecords (dims : List String) (rangeA rangeB : GscRange) (compareMode : String)
    (rowsA rowsB : List GscQueryRow) : List ComparisonRecord :=
  let mapA := rowsToMap rowsA dims
  let mapB := rowsToMap rowsB dims
  (setUnion (mapKeys mapA) (mapKeys mapB)).map (buildRecord dims rangeA rangeB compareMode mapA mapB)

/- ===== Auxiliary definitions used by the claims ===== -/

/-- Whether a character list contains two consecutive bars. -/
def bbAux : List Char → Bool
  | c1 :: c2 :: t => (c1 == '|' && c2 == '|') || bbAux (c2 :: t)
  | _ => false

/-- Whether a string contains the two-character substring of two bars
(the separator `keyFromRow` joins with). -/
def hasBarBar (s : String) : Bool := bbAux s.data

/-- Whether a string is free of the bar character. -/
def barFree (s : String) : Bool := s.data.all (fun c => c != '|')

/-- A mock remote source holding `src` in order and serving, from any
offset, the next `pageSize` rows that exist (a short or empty page at the
end of the data). -/
def honestRemote (src : List GscQueryRow) (pageSize : Nat) : Remote :=
  fun startRow => .ok ((src.drop startRow).take pageSize)

/-- A distinguishable row used by the mock sources. -/
def mkRow (i : Nat) : GscQueryRow := ⟨some [], (i : Rat), 0, 0, 0⟩

/-- The mock source of claim C2: 250 total rows. -/
def src250 : List GscQueryRow := (List.range 250).map mkRow

/-- A remote whose first page is full (100 rows) and whose second page
request fails: the witness source for claim C8. -/
def failingRemote : Remote :=
  fun startRow =>
    if startRow = 0 then .ok ((List.range 100).map mkRow)
    else .error ("transport error")

/-- Modelled from the spec (for the `corrected` form of C3 only): the
input/output table of `custom` mode in the spec's vocabulary — each
provided side is normalized-or-degraded by `toGscDate`; a missing end
falls back to today; a missing start falls back to 28 days before the
end; a missing start combined with a non-empty unparseable end throws. -/
def specCustomRange (today : Civil) (startArg endArg : Option String) : Except String GscRange :=
  match startArg, endArg with
  | some s, some e => .ok ⟨toGscDate s, toGscDate e⟩
  | some s, none => .ok ⟨toGscDate s, isoOfCivil today⟩
  | none, some e =>
    match parseIso e with
    | some ce => .ok ⟨isoOfCivil (addDays ce (-28)), isoOfCivil ce⟩
    | none =>
      if e = "" then .ok ⟨isoOfCivil (addDays today (-28)), ""⟩
      else .error ("Invalid time value")
  | none, none => .ok ⟨isoOfCivil (addDays today (-28)), isoOfCivil today⟩

/-- The month arithmetic the spec describes for `last3mo`/`last12mo`:
subtract `k ≤ 12` months, borrowing one year when the month underflows
(day-of-month untouched). -/
def specShiftMonths (y : Int) (m : Nat) (k : Nat) : Int × Nat :=
  if k < m then (y, m - k) else (y - 1, m + 12 - k)

/- ===== Calendar lemmas ===== -/

theorem daysInMonth_pos (y : Int) (m : Nat) : 28 ≤ daysInMonth y m := by
  unfold daysInMonth
  split
  · split <;> omega
  all_goals omega

theorem nextDay_ok {c : Civil} (h : c.Ok) : (nextDay c).Ok := by
  obtain ⟨y, m, d⟩ := c
  simp only [Civil.Ok] at h
  simp only [nextDay]
  split_ifs with h1 h2
  · simp only [Civil.Ok]
    omega
  · simp only [Civil.Ok]
    have hp := daysInMonth_pos y (m + 1)
    omega
  · simp only [Civil.Ok]
    have hp := daysInMonth_pos (y + 1) 1
    omega

theorem prevDay_ok {c : Civil} (h : c.Ok) : (prevDay c).Ok := by
  obtain ⟨y, m, d⟩ := c
  simp only [Civil.Ok] at h
  simp only [prevDay]
  split_ifs with h1 h2
  · simp only [Civil.Ok]
    omega
  · simp only [Civil.Ok]
    have hp := daysInMonth_pos y (m - 1)
    omega
  · simp only [Civil.Ok]
    have hp : daysInMonth (y - 1) 12 = 31 := rfl
    omega

theorem prev_next {c : Civil} (h : c.Ok) : prevDay (nextDay c) = c := by
  obtain ⟨y, m, d⟩ := c
  simp only [Civil.Ok] at h
  simp only [nextDay]
  split_ifs with h1 h2
  · simp only [prevDay]
    split_ifs with g1 g2
    · have ed : d + 1 - 1 = d := by omega
      rw [ed]
    · omega
    · omega
  · simp only [prevDay]
    split_ifs with g1 g2
    · omega
    · have em : m + 1 - 1 = m := by omega
      rw [em]
      have ed : d = daysInMonth y m := by omega
      rw [ed]
    · omega
  · have h31 : daysInMonth y 12 = 31 := rfl
    simp only [prevDay]
    split_ifs with g1
    · omega
    · have em : m = 12 := by omega
      subst em
      have ed : d = 31 := by omega
      subst ed
      have ey : y + 1 - 1 = y := by ring
      rw [ey]

theorem next_prev {c : Civil} (h : c.Ok) : nextDay (prevDay c) = c := by
  obtain ⟨y, m, d⟩ := c
  simp only [Civil.Ok] at h
  simp only [prevDay]
  split_ifs with h1 h2
  · simp only [nextDay]
    split_ifs with g1 g2
    · have ed : d - 1 + 1 = d := by omega
      rw [ed]
    · omega
    · omega
  · simp only [nextDay]
    split_ifs with g1 g2
    · omega
    · have em : m - 1 + 1 = m := by omega
      rw [em]
      have ed : d = 1 := by omega
      rw [ed]
    · omega
  · have h31 : daysInMonth (y - 1) 12 = 31 := rfl
    simp only [nextDay]
    split_ifs with g1 g2
    · omega
    · omega
    · have em : m = 1 := by omega
      subst em
      have ed : d = 1 := by omega
      subst ed
      have ey : y - 1 + 1 = y := by ring
      rw [ey]

theorem iterNext_ok {c : Civil} (h : c.Ok) (n : Nat) : (nextDay^[n] c).Ok := by
  induction n generalizing c with
  | zero => simpa using h
  | succ n ih =>
    rw [Function.iterate_succ_apply]
    exact ih (nextDay_ok h)

theorem iterPrev_ok {c : Civil} (h : c.Ok) (n : Nat) : (prevDay^[n] c).Ok := by
  induction n generalizing c with
  | zero => simpa using h
  | succ n ih =>
    rw [Function.iterate_succ_apply]
    exact ih (prevDay_ok h)

theorem addDays_ok {c : Civil} (h : c.Ok) (k : Int) : (addDays c k).Ok := by
  cases k with
  | ofNat n => exact iterNext_ok h n
  | negSucc n => exact iterPrev_ok h (n + 1)

theorem addDays_succ {c : Civil} (h : c.Ok) (k : Int) :
    addDays c (k + 1) = nextDay (addDays c k) := by
  cases k with
  | ofNat n =>
    have e : (Int.ofNat n) + 1 = Int.ofNat (n + 1) := rfl
    rw [e]
    simp only [addDays]
    exact Function.iterate_succ_apply' nextDay n c
  | negSucc n =>
    cases n with
    | zero =>
      have e : Int.negSucc 0 + 1 = Int.ofNat 0 := rfl
      rw [e]
      simp only [addDays, Function.iterate_zero_apply, Function.iterate_one]
      exact (next_prev h).symm
    | succ j =>
      have e : Int.negSucc (j + 1) + 1 = Int.negSucc j := rfl
      rw [e]
      simp only [addDays]
      have e2 : prevDay^[j + 1 + 1] c = prevDay (prevDay^[j + 1] c) :=
        Function.iterate_succ_apply' prevDay (j + 1) c
      rw [e2, next_prev (iterPrev_ok h (j + 1))]

theorem addDays_pred {c : Civil} (h : c.Ok) (k : Int) :
    addDays c (k - 1) = prevDay (addDays c k) := by
  cases k with
  | ofNat n =>
    cases n with
    | zero =>
      have e : Int.ofNat 0 - 1 = Int.negSucc 0 := by decide
      rw [e]
      rfl
    | succ j =>
      have e : Int.ofNat (j + 1) - 1 = Int.ofNat j := by
        simp only [Int.ofNat_eq_natCast]
        omega
      rw [e]
      simp only [addDays]
      have e2 : nextDay^[j + 1] c = nextDay (nextDay^[j] c) :=
        Function.iterate_succ_apply' nextDay j c
      rw [e2, prev_next (iterNext_ok h j)]
  | negSucc n =>
    have e : Int.negSucc n - 1 = Int.negSucc (n + 1) := rfl
    rw [e]
    simp only [addDays]
    exact Function.iterate_succ_apply' prevDay (n + 1) c

theorem addDays_add {c : Civil} (h : c.Ok) (a b : Int) :
    addDays c (a + b) = addDays (addDays c a) b := by
  induction b using Int.induction_on with
  | hz =>
    rw [Int.add_zero]
    rfl
  | hp i ih =>
    have e : a + ((i : Int) + 1) = (a + (i : Int)) + 1 := by ring
    rw [e, addDays_succ h, ih, ← addDays_succ (addDays_ok h a)]
  | hn i ih =>
    have e : a + (-(i : Int) - 1) = (a + -(i : Int)) - 1 := by ring
    rw [e, addDays_pred h, ih, ← addDays_pred (addDays_ok h a)]

theorem firstOk {y : Int} {m d : Nat} (h : (Civil.mk y m d).Ok) : (Civil.mk y m 1).Ok := by
  simp only [Civil.Ok] at h ⊢
  have hp := daysInMonth_pos y m
  omega

theorem iterNext_first {y : Int} {m : Nat} (j : Nat) (hj : j + 1 ≤ daysInMonth y m) :
    nextDay^[j] (Civil.mk y m 1) = Civil.mk y m (j + 1) := by
  induction j with
  | zero => rfl
  | succ j ih =>
    rw [Function.iterate_succ_apply', ih (by omega)]
    simp only [nextDay]
    split_ifs with h1
    · rfl
    · omega
    · omega

theorem addDays_first {y : Int} {m d : Nat} (h : (Civil.mk y m d).Ok) :
    addDays (Civil.mk y m 1) ((d : Int) - 1) = Civil.mk y m d := by
  simp only [Civil.Ok] at h
  have e : (d : Int) - 1 = Int.ofNat (d - 1) := by
    simp only [Int.ofNat_eq_natCast]
    omega
  rw [e]
  simp only [addDays]
  have := iterNext_first (y := y) (m := m) (d - 1) (by omega)
  rw [this]
  have e2 : d - 1 + 1 = d := by omega
  rw [e2]

theorem jsSetDate_shift {c : Civil} (h : c.Ok) (k : Int) :
    jsSetDate c ((c.day : Int) + k) = addDays c k := by
  obtain ⟨y, m, d⟩ := c
  simp only [jsSetDate]
  have e : (d : Int) + k - 1 = ((d : Int) - 1) + k := by ring
  rw [e, addDays_add (firstOk h), addDays_first h]

theorem isLeap_iff {y : Int} : isLeap y = true ↔ ((y % 4 = 0 ∧ ¬ y % 100 = 0) ∨ y % 400 = 0) := by
  simp only [isLeap, Bool.or_eq_true, Bool.and_eq_true, beq_iff_eq, bne_iff_ne, ne_eq]

theorem leap_cases (y : Int) :
    (isLeap y = true ∧ ((y % 4 = 0 ∧ ¬ y % 100 = 0) ∨ y % 400 = 0))
    ∨ (isLeap y = false ∧ ¬ ((y % 4 = 0 ∧ ¬ y % 100 = 0) ∨ y % 400 = 0)) := by
  rcases Bool.eq_false_or_eq_true (isLeap y) with hl | hl
  · exact Or.inl ⟨hl, isLeap_iff.mp hl⟩
  · refine Or.inr ⟨hl, ?_⟩
    intro hc
    rw [← isLeap_iff] at hc
    rw [hl] at hc
    exact Bool.false_ne_true hc

theorem civilToDays_nextDay {c : Civil} (h : c.Ok) :
    civilToDays (nextDay c) = civilToDays c + 1 := by
  obtain ⟨y, m, d⟩ := c
  simp only [Civil.Ok] at h
  obtain ⟨h1, h2, h3, h4⟩ := h
  rcases leap_cases y with ⟨hl, hy⟩ | ⟨hl, hy⟩ <;>
  · simp only [nextDay]
    split_ifs with hd hm
    · simp [civilToDays, hl]
      first
        | (split_ifs <;> omega)
        | omega
    · have hdim : d = daysInMonth y m := by omega
      interval_cases m <;>
        all_goals (simp [daysInMonth, hl] at hdim; simp [civilToDays, daysToMonth, hl]; try omega)
    · have hm12 : m = 12 := by omega
      subst hm12
      have e31 : daysInMonth y 12 = 31 := rfl
      have ed : d = 31 := by omega
      subst ed
      have e334 : daysToMonth 12 = 334 := rfl
      have e0 : daysToMonth 1 = 0 := rfl
      simp [civilToDays, hl]
      omega

theorem civilToDays_prevDay {c : Civil} (h : c.Ok) :
    civilToDays (prevDay c) = civilToDays c - 1 := by
  have h2 := civilToDays_nextDay (prevDay_ok h)
  rw [next_prev h] at h2
  omega

theorem civilToDays_addDays {c : Civil} (h : c.Ok) (k : Int) :
    civilToDays (addDays c k) = civilToDays c + k := by
  induction k using Int.induction_on with
  | hz =>
    have e : addDays c 0 = c := rfl
    rw [e, Int.add_zero]
  | hp i ih =>
    rw [addDays_succ h, civilToDays_nextDay (addDays_ok h (i : Int)), ih]
    ring
  | hn i ih =>
    have e : (-(i : Int) - 1) = (-(i : Int)) - 1 := rfl
    rw [e, addDays_pred h, civilToDays_prevDay (addDays_ok h (-(i : Int))), ih]
    ring

theorem digitVal_digitChar {n : Nat} (h : n ≤ 9) : digitVal (digitChar n) = some n := by
  interval_cases n <;> decide

theorem parseIso_isoOfCivil {c : Civil} (h : c.Ok) (hy0 : 0 ≤ c.year) (hy9 : c.year ≤ 9999) :
    parseIso (isoOfCivil c) = some c := by
  obtain ⟨y, m, d⟩ := c
  have hm12 : m ≤ 12 := h.2.1
  have hd : d ≤ daysInMonth y m := h.2.2.2
  have hd31 : d ≤ 31 := by
    have := daysInMonth_pos y m
    calc d ≤ daysInMonth y m := hd
    _ ≤ 31 := by
      unfold daysInMonth
      split
      · split <;> omega
      all_goals omega
  have hy0' : 0 ≤ y := hy0
  have hy9' : y ≤ 9999 := hy9
  have hyY : ((y.toNat : Nat) : Int) = y := Int.toNat_of_nonneg hy0'
  have hY9 : y.toNat ≤ 9999 := by omega
  have hdata : (isoOfCivil ⟨y, m, d⟩).data =
      [digitChar (y.toNat / 1000), digitChar (y.toNat / 100 % 10), digitChar (y.toNat / 10 % 10),
       digitChar (y.toNat % 10), '-', digitChar (m / 10), digitChar (m % 10), '-',
       digitChar (d / 10), digitChar (d % 10)] := rfl
  simp only [parseIso, hdata]
  rw [digitVal_digitChar (by omega), digitVal_digitChar (by omega),
      digitVal_digitChar (by omega), digitVal_digitChar (by omega),
      digitVal_digitChar (by omega), digitVal_digitChar (by omega),
      digitVal_digitChar (by omega), digitVal_digitChar (by omega)]
  have ey : 1000 * (y.toNat / 1000) + 100 * (y.toNat / 100 % 10) + 10 * (y.toNat / 10 % 10) + y.toNat % 10 = y.toNat := by
    omega
  have em : 10 * (m / 10) + m % 10 = m := by omega
  have ed2 : 10 * (d / 10) + d % 10 = d := by omega
  simp only [ey, em, ed2, hyY]
  simp
  exact h

theorem addDays_neg_one (c : Civil) : addDays c (-1) = prevDay c := rfl

theorem prevDay_year {c : Civil} : (prevDay c).year = c.year ∨ (prevDay c).year = c.year - 1 := by
  simp only [prevDay]
  split_ifs <;> simp

theorem shiftDaysN_iso {c : Civil} (h : c.Ok) (hy0 : 0 ≤ c.year) (hy9 : c.year ≤ 9999) (k : Int) :
    shiftDaysN (isoOfCivil c) (some k) = .ok (isoOfCivil (jsSetDate c ((c.day : Int) + k))) := by
  simp only [shiftDaysN, parseIso_isoOfCivil h hy0 hy9]

theorem shiftDays_iso {c : Civil} (h : c.Ok) (hy0 : 0 ≤ c.year) (hy9 : c.year ≤ 9999) (k : Int) :
    shiftDays (isoOfCivil c) k = .ok (isoOfCivil (addDays c k)) := by
  rw [shiftDays, shiftDaysN_iso h hy0 hy9 k, jsSetDate_shift h k]

theorem shiftYears_iso {c : Civil} (h : c.Ok) (hy0 : 0 ≤ c.year) (hy9 : c.year ≤ 9999) (k : Int) :
    shiftYears (isoOfCivil c) k = .ok (isoOfCivil (jsSetFullYear c (c.year + k))) := by
  simp only [shiftYears, parseIso_isoOfCivil h hy0 hy9]

theorem daysInclusive_iso {a b : Civil} (ha : a.Ok) (hb : b.Ok)
    (ha0 : 0 ≤ a.year) (ha9 : a.year ≤ 9999) (hb0 : 0 ≤ b.year) (hb9 : b.year ≤ 9999) :
    daysInclusive (isoOfCivil a) (isoOfCivil b) = some (civilToDays b - civilToDays a + 1) := by
  simp only [daysInclusive, parseIso_isoOfCivil ha ha0 ha9, parseIso_isoOfCivil hb hb0 hb9]

theorem jsSetFullYear_spec {y : Int} {m d : Nat} (h : (Civil.mk y m d).Ok) (v : Int)
    (hfit : d ≤ daysInMonth v m) :
    jsSetFullYear ⟨y, m, d⟩ v = ⟨v, m, d⟩ := by
  simp only [Civil.Ok] at h
  simp only [jsSetFullYear]
  exact addDays_first ⟨h.1, h.2.1, h.2.2.1, hfit⟩

theorem jsSetMonth_spec {y : Int} {m d : Nat} (h : (Civil.mk y m d).Ok) (k : Nat)
    (hk : 1 ≤ k) (hk12 : k ≤ 12)
    (hfit : d ≤ daysInMonth (specShiftMonths y m k).1 (specShiftMonths y m k).2) :
    jsSetMonth ⟨y, m, d⟩ (((m : Int) - 1) - (k : Int)) =
      ⟨(specShiftMonths y m k).1, (specShiftMonths y m k).2, d⟩ := by
  simp only [Civil.Ok] at h
  simp only [jsSetMonth]
  by_cases hlt : k < m
  · have es : specShiftMonths y m k = (y, m - k) := by
      simp only [specShiftMonths, if_pos hlt]
    have hfit2 : d ≤ daysInMonth y (m - k) := by
      rw [es] at hfit
      exact hfit
    have hok : (Civil.mk y (m - k) d).Ok := by
      simp only [Civil.Ok]
      refine ⟨by omega, by omega, by omega, hfit2⟩
    rw [es]
    have e1 : (y * 12 + ((m : Int) - 1 - (k : Int))) / 12 = y := by omega
    have e2 : ((y * 12 + ((m : Int) - 1 - (k : Int))) % 12).toNat + 1 = m - k := by omega
    rw [e1, e2]
    exact addDays_first hok
  · have es : specShiftMonths y m k = (y - 1, m + 12 - k) := by
      simp only [specShiftMonths, if_neg hlt]
    have hfit2 : d ≤ daysInMonth (y - 1) (m + 12 - k) := by
      rw [es] at hfit
      exact hfit
    have hok : (Civil.mk (y - 1) (m + 12 - k) d).Ok := by
      simp only [Civil.Ok]
      refine ⟨by omega, by omega, by omega, hfit2⟩
    rw [es]
    have e1 : (y * 12 + ((m : Int) - 1 - (k : Int))) / 12 = y - 1 := by omega
    have e2 : ((y * 12 + ((m : Int) - 1 - (k : Int))) % 12).toNat + 1 = m + 12 - k := by omega
    rw [e1, e2]
    exact addDays_first hok

theorem jsSetDate_shift2 {y : Int} {m d : Nat} (h : (Civil.mk y m d).Ok) (k : Int) :
    jsSetDate ⟨y, m, d⟩ ((d : Int) + k) = addDays ⟨y, m, d⟩ k := jsSetDate_shift h k

/-- C6: for the non-custom presets, `rangeFromPreset` keeps the
caller-supplied today as `endDate` and sets `startDate` to today minus 7
or 28 days, or minus 3 or 12 calendar months (same day-of-month, year
borrowed on underflow) whenever that day exists in the target month; in
particular `last7d` at 2024-03-10 gives 2024-03-03..2024-03-10 and
`last3mo` at 2024-01-15 gives 2023-10-15..2024-01-15. -/
theorem c6_presets (today : Civil) (h : today.Ok) (hy0 : 0 ≤ today.year) (hy9 : today.year ≤ 9999) :
    (rangeFromPreset today ("last7d") none none =
      .ok ⟨isoOfCivil (addDays today (-7)), isoOfCivil today⟩)
    ∧ (rangeFromPreset today ("last28d") none none =
      .ok ⟨isoOfCivil (addDays today (-28)), isoOfCivil today⟩)
    ∧ (today.day ≤ daysInMonth (specShiftMonths today.year today.month 3).1
          (specShiftMonths today.year today.month 3).2 →
        rangeFromPreset today ("last3mo") none none =
          .ok ⟨isoOfCivil ⟨(specShiftMonths today.year today.month 3).1,
                (specShiftMonths today.year today.month 3).2, today.day⟩, isoOfCivil today⟩)
    ∧ (today.day ≤ daysInMonth (today.year - 1) today.month →
        rangeFromPreset today ("last12mo") none none =
          .ok ⟨isoOfCivil ⟨today.year - 1, today.month, today.day⟩, isoOfCivil today⟩)
    ∧ rangeFromPreset ⟨2024, 3, 10⟩ ("last7d") none none = .ok ⟨"2024-03-03", "2024-03-10"⟩
    ∧ rangeFromPreset ⟨2024, 1, 15⟩ ("last3mo") none none = .ok ⟨"2023-10-15", "2024-01-15"⟩ := by
  obtain ⟨y, m, d⟩ := today
  refine ⟨?_, ?_, ?_, ?_, by rfl, by rfl⟩
  · simp only [rangeFromPreset, reduceIte]
    rw [show ((d : Int) - 7) = ((d : Int) + (-7)) from by ring, jsSetDate_shift2 h (-7),
        if_neg (show ¬ ("last7d" = "custom") from by decide)]
  · simp only [rangeFromPreset, reduceIte]
    rw [show ((d : Int) - 28) = ((d : Int) + (-28)) from by ring, jsSetDate_shift2 h (-28),
        if_neg (show ¬ ("last28d" = "custom") from by decide),
        if_neg (show ¬ ("last28d" = "last7d") from by decide)]
  · intro hfit
    simp only [rangeFromPreset, reduceIte]
    have e := jsSetMonth_spec h 3 (by omega) (by omega) hfit
    rw [show ((m : Int) - 1 - 3) = (((m : Int) - 1) - ((3 : Nat) : Int)) from by norm_num]
    rw [e, if_neg (show ¬ ("last3mo" = "custom") from by decide),
        if_neg (show ¬ ("last3mo" = "last7d") from by decide),
        if_neg (show ¬ ("last3mo" = "last28d") from by decide)]
  · intro hfit
    simp only [rangeFromPreset, reduceIte]
    have es : specShiftMonths y m 12 = (y - 1, m) := by
      simp only [Civil.Ok] at h
      simp only [specShiftMonths]
      rw [if_neg (by omega)]
      have e12 : m + 12 - 12 = m := by omega
      rw [e12]
    have hfit2 : d ≤ daysInMonth (specShiftMonths y m 12).1 (specShiftMonths y m 12).2 := by
      rw [es]
      exact hfit
    have e := jsSetMonth_spec h 12 (by omega) (by omega) hfit2
    rw [es] at e
    rw [show ((m : Int) - 1 - 12) = (((m : Int) - 1) - ((12 : Nat) : Int)) from by norm_num]
    rw [e, if_neg (show ¬ ("last12mo" = "custom") from by decide),
        if_neg (show ¬ ("last12mo" = "last7d") from by decide),
        if_neg (show ¬ ("last12mo" = "last28d") from by decide),
        if_neg (show ¬ ("last12mo" = "last3mo") from by decide)]

/-- C6 witness: the general preset theorem instantiated at 2024-03-10
(`last12mo`, with the day-fits side condition discharged there). -/
theorem c6_presets_w :
    rangeFromPreset ⟨2024, 3, 10⟩ ("last12mo") none none = .ok ⟨"2023-03-10", "2024-03-10"⟩ := by
  have h := (c6_presets ⟨2024, 3, 10⟩ (by decide) (by decide) (by decide)).2.2.2.1 (by decide)
  exact h.trans (by rfl)

/-- C4: with `rangeA` spanning `len` days inclusively (`b` is `len - 1`
days after `a`), the previous-period comparison range ends one day before
`a` and starts `len - 1` days before that end; in particular
2024-03-01..2024-03-10 yields 2024-02-20..2024-02-29. -/
theorem c4_prev_period (today a b : Civil) (len : Nat)
    (ha : a.Ok) (hb : b.Ok) (ha1 : 1 ≤ a.year) (ha9 : a.year ≤ 9999)
    (hb0 : 0 ≤ b.year) (hb9 : b.year ≤ 9999)
    (hab : addDays a ((len : Int) - 1) = b) :
    buildCompareRanges today ("prevPeriod") ⟨isoOfCivil a, isoOfCivil b⟩ none =
      .ok ⟨⟨isoOfCivil a, isoOfCivil b⟩,
        ⟨isoOfCivil (addDays (addDays a (-1)) (-((len : Int) - 1))),
         isoOfCivil (addDays a (-1))⟩⟩
    ∧ buildCompareRanges today ("prevPeriod") ⟨"2024-03-01", "2024-03-10"⟩ none =
      .ok ⟨⟨"2024-03-01", "2024-03-10"⟩, ⟨"2024-02-20", "2024-02-29"⟩⟩ := by
  constructor
  · have e1 : daysInclusive (isoOfCivil a) (isoOfCivil b) = some ((len : Int)) := by
      rw [daysInclusive_iso ha hb (by omega) ha9 hb0 hb9]
      have e := civilToDays_addDays ha ((len : Int) - 1)
      rw [hab] at e
      have : civilToDays b - civilToDays a + 1 = (len : Int) := by omega
      rw [this]
    have e2 : shiftDays (isoOfCivil a) (-1) = .ok (isoOfCivil (addDays a (-1))) :=
      shiftDays_iso ha (by omega) ha9 (-1)
    have oka1 : (addDays a (-1)).Ok := addDays_ok ha (-1)
    have hy1 : 0 ≤ (addDays a (-1)).year ∧ (addDays a (-1)).year ≤ 9999 := by
      rw [addDays_neg_one]
      rcases prevDay_year (c := a) with e | e <;> rw [e] <;> omega
    have e3 : shiftDaysN (isoOfCivil (addDays a (-1))) (some (-((len : Int) - 1))) =
        .ok (isoOfCivil (addDays (addDays a (-1)) (-((len : Int) - 1)))) := by
      rw [shiftDaysN_iso oka1 hy1.1 hy1.2, jsSetDate_shift oka1]
    simp only [buildCompareRanges, reduceIte, e1, Option.map_some', e2, e3]
  · rfl

/-- C4 witness: the previous-period theorem at the spec's leap-year
example. -/
theorem c4_prev_period_w :
    buildCompareRanges ⟨2025, 1, 1⟩ ("prevPeriod") ⟨"2024-03-01", "2024-03-10"⟩ none =
      .ok ⟨⟨"2024-03-01", "2024-03-10"⟩, ⟨"2024-02-20", "2024-02-29"⟩⟩ :=
  (c4_prev_period ⟨2025, 1, 1⟩ ⟨2024, 3, 1⟩ ⟨2024, 3, 10⟩ 10 (by decide) (by decide)
    (by decide) (by decide) (by decide) (by decide) (by decide)).2

/-- C7: when neither endpoint is a leap-day edge case (its day-of-month
exists in the previous year's same month), the previous-year comparison
range is rangeA with both years decremented, same month and day; in
particular 2024-03-01..2024-03-10 yields 2023-03-01..2023-03-10. -/
theorem c7_prev_year (today a b : Civil)
    (ha : a.Ok) (hb : b.Ok) (ha0 : 0 ≤ a.year) (ha9 : a.year ≤ 9999)
    (hb0 : 0 ≤ b.year) (hb9 : b.year ≤ 9999)
    (hfa : a.day ≤ daysInMonth (a.year - 1) a.month)
    (hfb : b.day ≤ daysInMonth (b.year - 1) b.month) :
    buildCompareRanges today ("prevYear") ⟨isoOfCivil a, isoOfCivil b⟩ none =
      .ok ⟨⟨isoOfCivil a, isoOfCivil b⟩,
        ⟨isoOfCivil ⟨a.year - 1, a.month, a.day⟩, isoOfCivil ⟨b.year - 1, b.month, b.day⟩⟩⟩
    ∧ buildCompareRanges today ("prevYear") ⟨"2024-03-01", "2024-03-10"⟩ none =
      .ok ⟨⟨"2024-03-01", "2024-03-10"⟩, ⟨"2023-03-01", "2023-03-10"⟩⟩ := by
  constructor
  · obtain ⟨ya, ma, da⟩ := a
    obtain ⟨yb, mb, db⟩ := b
    have e1 : shiftYears (isoOfCivil ⟨ya, ma, da⟩) (-1) = .ok (isoOfCivil ⟨ya - 1, ma, da⟩) := by
      rw [shiftYears_iso ha ha0 ha9 (-1)]
      have ev : (Civil.mk ya ma da).year + (-1) = ya - 1 := by
        dsimp only
        ring
      rw [ev, jsSetFullYear_spec ha (ya - 1) hfa]
    have e2 : shiftYears (isoOfCivil ⟨yb, mb, db⟩) (-1) = .ok (isoOfCivil ⟨yb - 1, mb, db⟩) := by
      rw [shiftYears_iso hb hb0 hb9 (-1)]
      have ev : (Civil.mk yb mb db).year + (-1) = yb - 1 := by
        dsimp only
        ring
      rw [ev, jsSetFullYear_spec hb (yb - 1) hfb]
    simp only [buildCompareRanges, reduceIte, e1, e2,
      if_neg (show ¬ ("prevYear" = "prevPeriod") from by decide)]
  · rfl

/-- C7 witness: the previous-year theorem at the spec's example. -/
theorem c7_prev_year_w :
    buildCompareRanges ⟨2025, 1, 1⟩ ("prevYear") ⟨"2024-03-01", "2024-03-10"⟩ none =
      .ok ⟨⟨"2024-03-01", "2024-03-10"⟩, ⟨"2023-03-01", "2023-03-10"⟩⟩ :=
  (c7_prev_year ⟨2025, 1, 1⟩ ⟨2024, 3, 1⟩ ⟨2024, 3, 10⟩ (by decide) (by decide)
    (by decide) (by decide) (by decide) (by decide) (by decide) (by decide)).2

/-- C3 counterexample: in custom mode an unparseable `customEnd` degrades
to the empty string, not to the default (today); and with `customStart`
missing it even throws, so the claim as stated is false on both counts. -/
theorem c3_claim_false :
    rangeFromPreset ⟨2024, 3, 10⟩ ("custom") (some ("2024-03-01")) (some ("not-a-date")) =
      .ok ⟨"2024-03-01", ""⟩
    ∧ rangeFromPreset ⟨2024, 3, 10⟩ ("custom") none (some ("not-a-date")) =
      .error ("Invalid time value")
    ∧ isoOfCivil ⟨2024, 3, 10⟩ = "2024-03-10"
    ∧ ("" : String) ≠ "2024-03-10" := by
  refine ⟨by rfl, by rfl, by rfl, by decide⟩

/-- C3 amended: custom mode behaves as the corrected input/output table
`specCustomRange` — a provided side is normalized when parseable and
degrades to the empty string otherwise; a missing end falls back to
today; a missing start falls back to 28 days before the end; a missing
start combined with a non-empty unparseable end throws. -/
theorem c3_custom_defaults (today : Civil) (s e : Option String) :
    rangeFromPreset today ("custom") s e = specCustomRange today s e := by
  have hc : rangeFromPreset today ("custom") s e = defaultedRange today s e := by
    simp only [rangeFromPreset, reduceIte]
  rw [hc]
  cases s with
  | some ss =>
    cases e with
    | some es => simp only [defaultedRange, specCustomRange]
    | none => simp only [defaultedRange, specCustomRange]
  | none =>
    cases e with
    | none => simp only [defaultedRange, specCustomRange, Option.map_some']
    | some es =>
      by_cases he : es = ""
      · subst he
        have hp : parseIso "" = none := rfl
        have ht : toGscDate "" = "" := rfl
        simp only [defaultedRange, specCustomRange, hp, ht, reduceIte, Option.map_some']
      · rcases hpe : parseIso es with _ | ce
        · simp only [defaultedRange, specCustomRange, hpe, if_neg he, Option.map_none']
        · simp only [defaultedRange, specCustomRange, hpe, if_neg he, Option.map_some',
            toGscDate]

theorem fetchLoop_bound (remote : Remote) (per target : Nat) (fuel : Nat) :
    ∀ (rows : List GscQueryRow) (startRow : Nat),
      target + 1 ≤ rows.length + fuel → 1 ≤ fuel →
      ∃ r n, fetchLoop remote per target fuel rows startRow = some (r, n) ∧
        n + rows.length ≤ max target rows.length := by
  induction fuel with
  | zero =>
    intro rows s h1 h2
    exact absurd h2 (by omega)
  | succ f ih =>
    intro rows s h1 h2
    by_cases hguard : target ≤ rows.length
    · refine ⟨.ok rows, 0, ?_, by omega⟩
      simp only [fetchLoop]
      rw [if_pos hguard]
    · cases hrem : remote s with
      | error e =>
        refine ⟨.error e, 1, ?_, by omega⟩
        simp only [fetchLoop]
        rw [if_neg hguard, hrem]
      | ok chunk =>
        by_cases hch : chunk.length = 0
        · refine ⟨.ok rows, 1, ?_, by omega⟩
          simp only [fetchLoop]
          rw [if_neg hguard, hrem]
          dsimp only
          rw [if_pos hch]
        · by_cases hshort : chunk.length < per
          · refine ⟨.ok (rows ++ chunk), 1, ?_, by omega⟩
            simp only [fetchLoop]
            rw [if_neg hguard, hrem]
            dsimp only
            rw [if_neg hch, if_pos hshort]
          · by_cases hfull : target ≤ (rows ++ chunk).length
            · refine ⟨.ok (rows ++ chunk), 1, ?_, by omega⟩
              simp only [fetchLoop]
              rw [if_neg hguard, hrem]
              dsimp only
              rw [if_neg hch, if_neg hshort, if_pos hfull]
            · have hlen : rows.length + 1 ≤ (rows ++ chunk).length := by
                simp only [List.length_append]
                omega
              have hlen2 : (rows ++ chunk).length < target := by omega
              obtain ⟨r, n, hr, hb⟩ := ih (rows ++ chunk) (s + chunk.length)
                (by omega) (by omega)
              refine ⟨r, n + 1, ?_, by omega⟩
              simp only [fetchLoop]
              rw [if_neg hguard, hrem]
              dsimp only
              rw [if_neg hch, if_neg hshort, if_neg hfull, hr]

/-- C9: for every remote source and every target, the pagination loop of
`fetchAllRows` exits within its fuel (every iteration either stops or
grows the accumulator), and the number of page requests issued is at most
`targetLimit`. -/
theorem c9_terminates_bounded (remote : Remote) (bodyRowLimit : Option Nat) (targetLimit : Nat) :
    ∃ r n, fetchAllRows remote bodyRowLimit targetLimit = some (r, n) ∧ n ≤ targetLimit := by
  obtain ⟨r, n, hr, hb⟩ := fetchLoop_bound remote
    (max 100 (min (bodyRowLimit.getD 1000) 25000)) targetLimit (targetLimit + 1) [] 0
    (by simp) (by omega)
  cases r with
  | ok rows =>
    refine ⟨.ok (rows.take targetLimit), n, ?_, ?_⟩
    · simp only [fetchAllRows]
      rw [hr]
    · simp only [List.length_nil] at hb
      omega
  | error e =>
    refine ⟨.error e, n, ?_, ?_⟩
    · simp only [fetchAllRows]
      rw [hr]
    · simp only [List.length_nil] at hb
      omega

/-- C1: whatever the remote serves and whatever per-page size is
configured, a successful `fetchAllRows` returns at most `targetLimit`
rows (the accumulated rows are sliced to the target). -/
theorem c1_at_most_target (remote : Remote) (bodyRowLimit : Option Nat) (targetLimit : Nat)
    (rows : List GscQueryRow) (n : Nat)
    (h : fetchAllRows remote bodyRowLimit targetLimit = some (.ok rows, n)) :
    rows.length ≤ targetLimit := by
  rcases hf : fetchLoop remote (max 100 (min (bodyRowLimit.getD 1000) 25000)) targetLimit
      (targetLimit + 1) [] 0 with _ | ⟨r, k⟩
  · simp only [fetchAllRows, hf] at h
    exact Option.noConfusion h
  · cases r with
    | ok rows0 =>
      simp only [fetchAllRows, hf, Option.some.injEq, Prod.mk.injEq, Except.ok.injEq] at h
      rw [← h.1]
      exact (List.length_take _ _).trans_le (by omega)
    | error e =>
      simp only [fetchAllRows, hf] at h
      exact Except.noConfusion (congrArg Prod.fst (Option.some.inj h))

/-- C1 witness: a five-row source with target 7 returns five rows, at
most the target. -/
theorem c1_at_most_target_w : (((List.range 5).map mkRow).length : Nat) ≤ 7 :=
  c1_at_most_target (honestRemote ((List.range 5).map mkRow) 100) (some 100) 7
    ((List.range 5).map mkRow) 1 (by rfl)

theorem fetchLoop_honest (src : List GscQueryRow) (per target : Nat) (hper : 1 ≤ per)
    (htot : src.length < target) :
    ∀ (fuel j : Nat), per * j ≤ src.length → target + 1 ≤ per * j + fuel →
      fetchLoop (honestRemote src per) per target fuel (src.take (per * j)) (per * j) =
        some (.ok src, (src.length - per * j) / per + 1) := by
  intro fuel
  induction fuel with
  | zero =>
    intro j h1 h2
    omega
  | succ f ih =>
    intro j h1 h2
    have hmul : per * (j + 1) = per * j + per := by ring
    have hlt : (src.take (per * j)).length = per * j := by
      simp only [List.length_take]
      omega
    have hchunk : ((src.drop (per * j)).take per).length = min per (src.length - per * j) := by
      simp only [List.length_take, List.length_drop]
    simp only [fetchLoop, honestRemote]
    rw [if_neg (by omega)]
    by_cases hz : src.length - per * j = 0
    · have hc0 : ((src.drop (per * j)).take per).length = 0 := by omega
      rw [if_pos hc0]
      have hall : src.take (per * j) = src := List.take_of_length_le (by omega)
      rw [hall, hz]
      norm_num
    · by_cases hshort : src.length - per * j < per
      · have hcS : ((src.drop (per * j)).take per).length = src.length - per * j := by omega
        rw [if_neg (by omega)]
        rw [if_pos (by omega)]
        have hall : src.take (per * j) ++ (src.drop (per * j)).take per = src := by
          rw [← List.take_add]
          exact List.take_of_length_le (by omega)
        rw [hall]
        have hdiv : (src.length - per * j) / per = 0 := Nat.div_eq_of_lt hshort
        rw [hdiv]
      · -- a full page: recurse
        have hcF : ((src.drop (per * j)).take per).length = per := by omega
        rw [if_neg (by omega)]
        rw [if_neg (by omega)]
        have happ : src.take (per * j) ++ (src.drop (per * j)).take per =
            src.take (per * (j + 1)) := by
          rw [← List.take_add]
          have : per * j + per = per * (j + 1) := by ring
          rw [this]
        have hlen1 : (src.take (per * j) ++ (src.drop (per * j)).take per).length =
            per * (j + 1) := by
          simp only [List.length_append]
          rw [hlt, hcF]
          ring
        rw [if_neg (by omega)]
        have hstep : per * j + ((src.drop (per * j)).take per).length = per * (j + 1) := by
          rw [hcF]
          ring
        rw [happ, hstep]
        rw [ih (j + 1) (by omega) (by omega)]
        have hd : (src.length - per * j) / per = (src.length - per * (j + 1)) / per + 1 := by
          have e1 : src.length - per * j = (src.length - per * (j + 1)) + per := by
            have : per * (j + 1) = per * j + per := by ring
            omega
          rw [e1]
          rw [Nat.add_div_right _ (by omega)]
        rw [hd]

set_option maxRecDepth 8000 in
/-- C2: a remote source holding fewer rows in total than `targetLimit`
and serving them in pages of the configured (clamped) size is drained
exactly: `fetchAllRows` returns precisely the source's rows and stops
after the first short or empty page, i.e. after `total / perPage + 1`
requests; in particular the 250-row mock with pages of 100 and
`targetLimit = 1000` gives exactly 250 rows after exactly 3 requests. -/
theorem c2_source_exhausted (src : List GscQueryRow) (perReq targetLimit : Nat)
    (htot : src.length < targetLimit) :
    fetchAllRows (honestRemote src (max 100 (min perReq 25000))) (some perReq) targetLimit =
      some (.ok src, src.length / (max 100 (min perReq 25000)) + 1)
    ∧ fetchAllRows (honestRemote src250 100) (some 100) 1000 = some (.ok src250, 3)
    ∧ src250.length = 250 := by
  refine ⟨?_, by rfl, by rfl⟩
  have h0 := fetchLoop_honest src (max 100 (min perReq 25000)) targetLimit (by omega) htot
    (targetLimit + 1) 0 (by omega) (by omega)
  rw [Nat.mul_zero] at h0
  rw [List.take_zero] at h0
  simp only [fetchAllRows, Option.getD_some, h0]
  rw [List.take_of_length_le (by omega)]
  rw [Nat.sub_zero]

set_option maxRecDepth 8000 in
/-- C2 witness: the general exhausted-source theorem instantiated at the
spec's 250-row mock (pages of 100, target 1000): exactly the 250 source
rows, after exactly 3 requests. -/
theorem c2_source_exhausted_w :
    fetchAllRows (honestRemote src250 100) (some 100) 1000 = some (.ok src250, 3) :=
  (c2_source_exhausted src250 100 1000 (by decide)).2.1

/-- C8: a transport/auth error from any single page request aborts the
whole fetch at once — the loop body returns that error after exactly that
one further request, dropping every row collected from earlier pages —
and at the item level the error is rethrown, or recorded as the single
error output when continue-on-failure is set, so no partial rows reach
the operation output. -/
theorem c8_error_aborts :
    (∀ (remote : Remote) (per target fuel : Nat) (rows : List GscQueryRow)
        (startRow : Nat) (e : String),
      rows.length < target → remote startRow = .error e →
      fetchLoop remote per target (fuel + 1) rows startRow = some (.error e, 1))
    ∧ (∀ (remote : Remote) (bodyRowLimit : Option Nat) (target : Nat)
        (dims : List String) (e : String) (n : Nat),
      fetchAllRows remote bodyRowLimit target = some (.error e, n) →
      runQueryItem true remote bodyRowLimit target dims = .ok [ItemOut.err e]
      ∧ runQueryItem false remote bodyRowLimit target dims = .error e) := by
  constructor
  · intro remote per target fuel rows s e hlt herr
    simp only [fetchLoop]
    rw [if_neg (by omega), herr]
  · intro remote brl target dims e n h
    constructor
    · simp only [runQueryItem, h, reduceIte]
    · simp only [runQueryItem, h]
      rw [if_neg (by decide)]

/-- C8 witness: a remote whose first page is full and whose second
request fails: the fetch ends in that error after 2 requests, and the
item output is the lone error record (or the rethrown error). -/
theorem c8_error_aborts_w :
    runQueryItem true failingRemote (some 100) 250 [] = .ok [ItemOut.err ("transport error")]
    ∧ runQueryItem false failingRemote (some 100) 250 [] = .error ("transport error") :=
  c8_error_aborts.2 failingRemote (some 100) 250 [] ("transport error") 2 (by rfl)

/- ===== Association-list and dedup lemmas for the row join ===== -/

theorem mapGet_set_self (m : List (String × GscQueryRow)) (k : String) (v : GscQueryRow) :
    mapGet (mapSet m k v) k = some v := by
  induction m with
  | nil => simp [mapSet, mapGet]
  | cons p t ih =>
    obtain ⟨k2, v2⟩ := p
    by_cases hk : k2 = k
    · simp [mapSet, mapGet, hk]
    · simp [mapSet, mapGet, hk, ih]

theorem mapGet_set_other (m : List (String × GscQueryRow)) (k k2 : String) (v : GscQueryRow)
    (hne : k2 ≠ k) : mapGet (mapSet m k v) k2 = mapGet m k2 := by
  have h2 : ¬ k = k2 := fun h => hne h.symm
  induction m with
  | nil => simp [mapSet, mapGet, h2]
  | cons p t ih =>
    obtain ⟨k3, v3⟩ := p
    by_cases hk : k3 = k
    · subst hk
      simp [mapSet, mapGet, h2]
    · simp only [mapSet, if_neg hk, mapGet]
      by_cases hk2 : k3 = k2
      · simp [hk2]
      · simp [hk2, ih]

theorem mapKeys_set (m : List (String × GscQueryRow)) (k : String) (v : GscQueryRow) :
    mapKeys (mapSet m k v) = if k ∈ mapKeys m then mapKeys m else mapKeys m ++ [k] := by
  induction m with
  | nil => simp [mapSet, mapKeys]
  | cons p t ih =>
    obtain ⟨k2, v2⟩ := p
    by_cases hk : k2 = k
    · simp [mapSet, mapKeys, hk]
    · simp only [mapSet, if_neg hk, mapKeys, List.map_cons, List.mem_cons]
      by_cases hm : k ∈ mapKeys t
      · simp only [mapKeys] at ih hm
        simp [ih, hm]
      · simp only [mapKeys] at ih hm
        have hne : ¬ k = k2 := fun h => hk h.symm
        simp [ih, hm, hne]

theorem mapKeys_set_nodup (m : List (String × GscQueryRow)) (k : String) (v : GscQueryRow)
    (h : (mapKeys m).Nodup) : (mapKeys (mapSet m k v)).Nodup := by
  rw [mapKeys_set]
  by_cases hm : k ∈ mapKeys m
  · simpa [hm] using h
  · simp only [hm, if_false]
    simp [List.nodup_append, h, hm]

theorem mem_mapKeys_foldl (dims : List String) (rows : List GscQueryRow) :
    ∀ (m : List (String × GscQueryRow)) (k : String),
      k ∈ mapKeys (rows.foldl (fun m r => mapSet m (keyFromRow dims r) r) m) ↔
        k ∈ mapKeys m ∨ ∃ r ∈ rows, keyFromRow dims r = k := by
  induction rows with
  | nil => simp
  | cons r0 rest ih =>
    intro m k
    simp only [List.foldl_cons, ih, List.mem_cons]
    rw [mapKeys_set]
    by_cases hm : keyFromRow dims r0 ∈ mapKeys m
    · simp only [if_pos hm]
      constructor
      · rintro (h | ⟨r, hr, hk⟩)
        · exact Or.inl h
        · exact Or.inr ⟨r, Or.inr hr, hk⟩
      · rintro (h | ⟨r, hr | hr, hk⟩)
        · exact Or.inl h
        · subst hr
          exact Or.inl (hk ▸ hm)
        · exact Or.inr ⟨r, hr, hk⟩
    · simp only [if_neg hm, List.mem_append, List.mem_singleton]
      constructor
      · rintro ((h | h) | ⟨r, hr, hk⟩)
        · exact Or.inl h
        · exact Or.inr ⟨r0, Or.inl rfl, h.symm⟩
        · exact Or.inr ⟨r, Or.inr hr, hk⟩
      · rintro (h | ⟨r, hr | hr, hk⟩)
        · exact Or.inl (Or.inl h)
        · subst hr
          exact Or.inl (Or.inr hk.symm)
        · exact Or.inr ⟨r, hr, hk⟩

theorem nodup_mapKeys_foldl (dims : List String) (rows : List GscQueryRow) :
    ∀ (m : List (String × GscQueryRow)), (mapKeys m).Nodup →
      (mapKeys (rows.foldl (fun m r => mapSet m (keyFromRow dims r) r) m)).Nodup := by
  induction rows with
  | nil => exact fun m h => h
  | cons r0 rest ih =>
    intro m hm
    simp only [List.foldl_cons]
    exact ih _ (mapKeys_set_nodup _ _ _ hm)

theorem mapGet_foldl_skip (dims : List String) (rows : List GscQueryRow) :
    ∀ (m : List (String × GscQueryRow)) (k : String),
      (∀ r ∈ rows, keyFromRow dims r ≠ k) →
      mapGet (rows.foldl (fun m r => mapSet m (keyFromRow dims r) r) m) k = mapGet m k := by
  induction rows with
  | nil => simp
  | cons r0 rest ih =>
    intro m k hno
    simp only [List.foldl_cons]
    rw [ih _ k (fun r hr => hno r (List.mem_cons_of_mem _ hr))]
    exact mapGet_set_other _ _ _ _ (fun h => hno r0 (List.mem_cons_self _ _) h.symm)

theorem mapGet_rowsToMap (dims : List String) (rows : List GscQueryRow)
    (hnd : (rows.map (keyFromRow dims)).Nodup) :
    ∀ r ∈ rows, mapGet (rowsToMap rows dims) (keyFromRow dims r) = some r := by
  suffices h : ∀ (m : List (String × GscQueryRow)), (rows.map (keyFromRow dims)).Nodup →
      ∀ r ∈ rows, mapGet (rows.foldl (fun m r => mapSet m (keyFromRow dims r) r) m)
        (keyFromRow dims r) = some r by
    intro r hr
    exact h [] hnd r hr
  clear hnd
  induction rows with
  | nil => simp
  | cons r0 rest ih =>
    intro m hnd2 r hr
    simp only [List.map_cons, List.nodup_cons] at hnd2
    rcases List.mem_cons.mp hr with he | hrest
    · subst he
      simp only [List.foldl_cons]
      rw [mapGet_foldl_skip dims rest _ _ ?_]
      · exact mapGet_set_self _ _ _
      · intro r2 hr2 hk2
        exact hnd2.1 (hk2 ▸ List.mem_map_of_mem (keyFromRow dims) hr2)
    · simp only [List.foldl_cons]
      exact ih _ hnd2.2 r hrest

theorem mapGet_rowsToMap_none (dims : List String) (rows : List GscQueryRow) (k : String)
    (hno : ∀ r ∈ rows, keyFromRow dims r ≠ k) :
    mapGet (rowsToMap rows dims) k = none := by
  rw [rowsToMap, mapGet_foldl_skip dims rows [] k hno]
  rfl

theorem mem_dedupFirst (l : List String) :
    ∀ (seen : List String) (k : String), k ∈ dedupFirst seen l ↔ k ∈ l ∧ k ∉ seen := by
  induction l with
  | nil => simp [dedupFirst]
  | cons a t ih =>
    intro seen k
    simp only [dedupFirst]
    by_cases ha : a ∈ seen
    · rw [if_pos ha, ih]
      simp only [List.mem_cons]
      constructor
      · rintro ⟨h1, h2⟩
        exact ⟨Or.inr h1, h2⟩
      · rintro ⟨h1 | h1, h2⟩
        · subst h1
          exact absurd ha h2
        · exact ⟨h1, h2⟩
    · rw [if_neg ha]
      simp only [List.mem_cons, ih]
      constructor
      · rintro (h | ⟨h1, h2⟩)
        · subst h
          exact ⟨Or.inl rfl, ha⟩
        · exact ⟨Or.inr h1, fun hs => h2 (Or.inr hs)⟩
      · rintro ⟨h1 | h1, h2⟩
        · exact Or.inl h1
        · by_cases hek : k = a
          · exact Or.inl hek
          · refine Or.inr ⟨h1, fun hs => ?_⟩
            rcases hs with h3 | h3
            · exact hek h3
            · exact h2 h3

theorem nodup_dedupFirst (l : List String) :
    ∀ (seen : List String), (dedupFirst seen l).Nodup := by
  induction l with
  | nil => simp [dedupFirst]
  | cons a t ih =>
    intro seen
    simp only [dedupFirst]
    by_cases ha : a ∈ seen
    · rw [if_pos ha]
      exact ih seen
    · rw [if_neg ha]
      refine List.nodup_cons.mpr ⟨?_, ih (a :: seen)⟩
      intro hmem
      exact ((mem_dedupFirst t (a :: seen) a).mp hmem).2 (List.mem_cons_self _ _)

theorem mem_rowsToMap (dims : List String) (rows : List GscQueryRow) (k : String) :
    k ∈ mapKeys (rowsToMap rows dims) ↔ ∃ r ∈ rows, keyFromRow dims r = k := by
  rw [rowsToMap, mem_mapKeys_foldl]
  simp [mapKeys]

theorem mem_setUnion (la lb : List String) (k : String) :
    k ∈ setUnion la lb ↔ k ∈ la ∨ k ∈ lb := by
  rw [setUnion, mem_dedupFirst]
  simp

/-- C5: the row join emits exactly one `ComparisonRecord` per RowKey
occurring in either fetched sequence (the iterated key set is duplicate
free and holds exactly those keys); a key present on only one side is
paired with a synthetic zero-valued row preserving its dimension values;
every diff field is the side-A metric minus the side-B metric; and the
spec's two-row example yields exactly the two expected records with
`clicks_diff` 10 and -5. -/
theorem c5_join (dims : List String) (rangeA rangeB : GscRange) (mode : String)
    (rowsA rowsB : List GscQueryRow)
    (hA : (rowsA.map (keyFromRow dims)).Nodup) (hB : (rowsB.map (keyFromRow dims)).Nodup) :
    ((joinRecords dims rangeA rangeB mode rowsA rowsB).length =
        (setUnion (mapKeys (rowsToMap rowsA dims)) (mapKeys (rowsToMap rowsB dims))).length
      ∧ (setUnion (mapKeys (rowsToMap rowsA dims)) (mapKeys (rowsToMap rowsB dims))).Nodup
      ∧ (∀ k, k ∈ setUnion (mapKeys (rowsToMap rowsA dims)) (mapKeys (rowsToMap rowsB dims)) ↔
          ((∃ r ∈ rowsA, keyFromRow dims r = k) ∨ (∃ r ∈ rowsB, keyFromRow dims r = k))))
    ∧ (∀ ra ∈ rowsA, (∀ rb ∈ rowsB, keyFromRow dims rb ≠ keyFromRow dims ra) →
        ComparisonRecord.mk (dimPairs dims (ra.keys.getD []))
          ra.clicks 0 (ra.clicks - 0) ra.impressions 0 (ra.impressions - 0)
          ra.ctr 0 (ra.ctr - 0) ra.position 0 (ra.position - 0)
          rangeA rangeB mode ∈ joinRecords dims rangeA rangeB mode rowsA rowsB)
    ∧ (∀ rb ∈ rowsB, (∀ ra ∈ rowsA, keyFromRow dims ra ≠ keyFromRow dims rb) →
        ComparisonRecord.mk (dimPairs dims (rb.keys.getD []))
          0 rb.clicks (0 - rb.clicks) 0 rb.impressions (0 - rb.impressions)
          0 rb.ctr (0 - rb.ctr) 0 rb.position (0 - rb.position)
          rangeA rangeB mode ∈ joinRecords dims rangeA rangeB mode rowsA rowsB)
    ∧ (∀ ra ∈ rowsA, ∀ rb ∈ rowsB, keyFromRow dims ra = keyFromRow dims rb →
        ComparisonRecord.mk (dimPairs dims ((ra.keys.orElse (fun _ => rb.keys)).getD []))
          ra.clicks rb.clicks (ra.clicks - rb.clicks)
          ra.impressions rb.impressions (ra.impressions - rb.impressions)
          ra.ctr rb.ctr (ra.ctr - rb.ctr)
          ra.position rb.position (ra.position - rb.position)
          rangeA rangeB mode ∈ joinRecords dims rangeA rangeB mode rowsA rowsB)
    ∧ joinRecords ["page"] rangeA rangeB mode
        [⟨some ["/a"], 10, 0, 0, 0⟩] [⟨some ["/b"], 5, 0, 0, 0⟩] =
      [⟨[("page", "/a")], 10, 0, 10, 0, 0, 0, 0, 0, 0, 0, 0, 0, rangeA, rangeB, mode⟩,
       ⟨[("page", "/b")], 0, 5, -5, 0, 0, 0, 0, 0, 0, 0, 0, 0, rangeA, rangeB, mode⟩] := by
  have base : joinRecords ["page"] rangeA rangeB mode
      [⟨some ["/a"], 10, 0, 0, 0⟩] [⟨some ["/b"], 5, 0, 0, 0⟩] =
    [⟨[("page", "/a")], 10, 0, 10 - 0, 0, 0, 0 - 0, 0, 0, 0 - 0, 0, 0, 0 - 0, rangeA, rangeB, mode⟩,
     ⟨[("page", "/b")], 0, 5, 0 - 5, 0, 0, 0 - 0, 0, 0, 0 - 0, 0, 0, 0 - 0, rangeA, rangeB, mode⟩] := rfl
  refine ⟨⟨?_, ?_, ?_⟩, ?_, ?_, ?_, by rw [base]; norm_num⟩
  · simp [joinRecords]
  · exact nodup_dedupFirst _ []
  · intro k
    rw [mem_setUnion, mem_rowsToMap, mem_rowsToMap]
  · intro ra hra hno
    have hga : mapGet (rowsToMap rowsA dims) (keyFromRow dims ra) = some ra :=
      mapGet_rowsToMap dims rowsA hA ra hra
    have hgb : mapGet (rowsToMap rowsB dims) (keyFromRow dims ra) = none :=
      mapGet_rowsToMap_none dims rowsB _ hno
    have hmem : keyFromRow dims ra ∈
        setUnion (mapKeys (rowsToMap rowsA dims)) (mapKeys (rowsToMap rowsB dims)) := by
      rw [mem_setUnion, mem_rowsToMap]
      exact Or.inl ⟨ra, hra, rfl⟩
    have hb : buildRecord dims rangeA rangeB mode (rowsToMap rowsA dims) (rowsToMap rowsB dims)
        (keyFromRow dims ra) =
        ComparisonRecord.mk (dimPairs dims (ra.keys.getD []))
          ra.clicks 0 (ra.clicks - 0) ra.impressions 0 (ra.impressions - 0)
          ra.ctr 0 (ra.ctr - 0) ra.position 0 (ra.position - 0)
          rangeA rangeB mode := by
      simp only [buildRecord, hga, hgb, Option.getD_some, Option.bind, emptyFrom]
      cases hk : ra.keys with
      | none => simp [Option.orElse, hk]
      | some l => simp [Option.orElse, hk]
    rw [joinRecords, ← hb]
    exact List.mem_map_of_mem _ hmem
  · intro rb hrb hno
    have hgb : mapGet (rowsToMap rowsB dims) (keyFromRow dims rb) = some rb :=
      mapGet_rowsToMap dims rowsB hB rb hrb
    have hga : mapGet (rowsToMap rowsA dims) (keyFromRow dims rb) = none :=
      mapGet_rowsToMap_none dims rowsA _ hno
    have hmem : keyFromRow dims rb ∈
        setUnion (mapKeys (rowsToMap rowsA dims)) (mapKeys (rowsToMap rowsB dims)) := by
      rw [mem_setUnion, mem_rowsToMap, mem_rowsToMap]
      exact Or.inr ⟨rb, hrb, rfl⟩
    have hb : buildRecord dims rangeA rangeB mode (rowsToMap rowsA dims) (rowsToMap rowsB dims)
        (keyFromRow dims rb) =
        ComparisonRecord.mk (dimPairs dims (rb.keys.getD []))
          0 rb.clicks (0 - rb.clicks) 0 rb.impressions (0 - rb.impressions)
          0 rb.ctr (0 - rb.ctr) 0 rb.position (0 - rb.position)
          rangeA rangeB mode := by
      simp only [buildRecord, hga, hgb, Option.getD_some, Option.bind, emptyFrom]
      cases hk : rb.keys with
      | none => simp [Option.orElse, hk]
      | some l => simp [Option.orElse, hk]
    rw [joinRecords, ← hb]
    exact List.mem_map_of_mem _ hmem
  · intro ra hra rb hrb hkey
    have hga : mapGet (rowsToMap rowsA dims) (keyFromRow dims ra) = some ra :=
      mapGet_rowsToMap dims rowsA hA ra hra
    have hgb : mapGet (rowsToMap rowsB dims) (keyFromRow dims ra) = some rb := by
      rw [hkey]
      exact mapGet_rowsToMap dims rowsB hB rb hrb
    have hmem : keyFromRow dims ra ∈
        setUnion (mapKeys (rowsToMap rowsA dims)) (mapKeys (rowsToMap rowsB dims)) := by
      rw [mem_setUnion, mem_rowsToMap]
      exact Or.inl ⟨ra, hra, rfl⟩
    have hb : buildRecord dims rangeA rangeB mode (rowsToMap rowsA dims) (rowsToMap rowsB dims)
        (keyFromRow dims ra) =
        ComparisonRecord.mk (dimPairs dims ((ra.keys.orElse (fun _ => rb.keys)).getD []))
          ra.clicks rb.clicks (ra.clicks - rb.clicks)
          ra.impressions rb.impressions (ra.impressions - rb.impressions)
          ra.ctr rb.ctr (ra.ctr - rb.ctr)
          ra.position rb.position (ra.position - rb.position)
          rangeA rangeB mode := by
      simp only [buildRecord, hga, hgb, Option.getD_some]
    rw [joinRecords, ← hb]
    exact List.mem_map_of_mem _ hmem

/-- C5 witness: the join theorem applied to the spec's two-row example,
with the duplicate-free-key hypotheses discharged there. -/
theorem c5_join_w :
    joinRecords ["page"] ⟨"2024-03-01", "2024-03-10"⟩ ⟨"2024-02-20", "2024-02-29"⟩ "prevPeriod"
        [⟨some ["/a"], 10, 0, 0, 0⟩] [⟨some ["/b"], 5, 0, 0, 0⟩] =
      [⟨[("page", "/a")], 10, 0, 10, 0, 0, 0, 0, 0, 0, 0, 0, 0,
        ⟨"2024-03-01", "2024-03-10"⟩, ⟨"2024-02-20", "2024-02-29"⟩, "prevPeriod"⟩,
       ⟨[("page", "/b")], 0, 5, -5, 0, 0, 0, 0, 0, 0, 0, 0, 0,
        ⟨"2024-03-01", "2024-03-10"⟩, ⟨"2024-02-20", "2024-02-29"⟩, "prevPeriod"⟩] :=
  (c5_join ["page"] ⟨"2024-03-01", "2024-03-10"⟩ ⟨"2024-02-20", "2024-02-29"⟩ "prevPeriod"
    [⟨some ["/a"], 10, 0, 0, 0⟩] [⟨some ["/b"], 5, 0, 0, 0⟩]
    (by simp) (by simp)).2.2.2.2

/- ===== Key-join injectivity (C10) ===== -/

/-- `joinKeys` at the character-list level. -/
def joinData : List (List Char) → List Char
  | [] => []
  | [a] => a
  | a :: a2 :: t => a ++ '|' :: '|' :: joinData (a2 :: t)

theorem joinKeys_data : ∀ l : List String, (joinKeys l).data = joinData (l.map String.data)
  | [] => rfl
  | [a] => rfl
  | a :: a2 :: t => by
    simp only [joinKeys, joinData, List.map_cons]
    rw [String.data_append, String.data_append]
    rw [joinKeys_data (a2 :: t)]
    simp [List.map_cons]

theorem strData_inj {s1 s2 : String} (h : s1.data = s2.data) : s1 = s2 := by
  cases s1
  cases s2
  exact congrArg String.mk h

theorem splitBar : ∀ {a1 a2 r1 r2 : List Char}, '|' ∉ a1 → '|' ∉ a2 →
    a1 ++ '|' :: '|' :: r1 = a2 ++ '|' :: '|' :: r2 → a1 = a2 ∧ r1 = r2 := by
  intro a1
  induction a1 with
  | nil =>
    intro a2 r1 r2 h1 h2 he
    cases a2 with
    | nil => simpa using he
    | cons c t =>
      simp only [List.nil_append, List.cons_append, List.cons.injEq] at he
      exact absurd (he.1 ▸ List.mem_cons_self c t) (he.1 ▸ h2)
  | cons c t ih =>
    intro a2 r1 r2 h1 h2 he
    cases a2 with
    | nil =>
      simp only [List.nil_append, List.cons_append, List.cons.injEq] at he
      exact absurd (List.mem_cons_self c t) (he.1 ▸ h1)
    | cons c2 t2 =>
      simp only [List.cons_append, List.cons.injEq] at he
      have hm1 : '|' ∉ t := fun hx => h1 (List.mem_cons_of_mem _ hx)
      have hm2 : '|' ∉ t2 := fun hx => h2 (List.mem_cons_of_mem _ hx)
      obtain ⟨e1, e2⟩ := ih hm1 hm2 he.2
      exact ⟨by rw [he.1, e1], e2⟩

theorem joinData_inj : ∀ (l1 l2 : List (List Char)),
    (∀ a ∈ l1, '|' ∉ a) → (∀ a ∈ l2, '|' ∉ a) → l1.length = l2.length →
    joinData l1 = joinData l2 → l1 = l2 := by
  intro l1
  induction l1 with
  | nil =>
    intro l2 _ _ hlen _
    cases l2 with
    | nil => rfl
    | cons a t => simp at hlen
  | cons a t ih =>
    intro l2 hb1 hb2 hlen he
    cases l2 with
    | nil => simp at hlen
    | cons a2 t2 =>
      cases t with
      | nil =>
        cases t2 with
        | nil =>
          simp only [joinData] at he
          rw [he]
        | cons b2 bt2 => simp at hlen
      | cons b bt =>
        cases t2 with
        | nil => simp at hlen
        | cons b2 bt2 =>
          simp only [joinData] at he
          obtain ⟨e1, e2⟩ := splitBar (hb1 a (List.mem_cons_self _ _))
            (hb2 a2 (List.mem_cons_self _ _)) he
          have et : (b :: bt) = (b2 :: bt2) := by
            refine ih (b2 :: bt2) ?_ ?_ ?_ e2
            · intro x hx
              exact hb1 x (List.mem_cons_of_mem _ hx)
            · intro x hx
              exact hb2 x (List.mem_cons_of_mem _ hx)
            · simpa using hlen
          rw [e1, et]

theorem barFree_iff {s : String} : barFree s = true ↔ '|' ∉ s.data := by
  simp only [barFree, List.all_eq_true, bne_iff_ne, ne_eq]
  constructor
  · intro h hc
    exact (h _ hc) rfl
  · intro h c hc he
    exact h (he ▸ hc)

theorem joinKeys_inj (ks1 ks2 : List String) (hlen : ks1.length = ks2.length)
    (hb1 : ∀ s ∈ ks1, barFree s = true) (hb2 : ∀ s ∈ ks2, barFree s = true) :
    joinKeys ks1 = joinKeys ks2 ↔ ks1 = ks2 := by
  constructor
  · intro he
    have hd : joinData (ks1.map String.data) = joinData (ks2.map String.data) := by
      rw [← joinKeys_data, ← joinKeys_data, he]
    have hmap : ks1.map String.data = ks2.map String.data := by
      refine joinData_inj _ _ ?_ ?_ (by simp [hlen]) hd
      · intro a ha
        obtain ⟨s, hs, rfl⟩ := List.mem_map.mp ha
        exact barFree_iff.mp (hb1 s hs)
      · intro a ha
        obtain ⟨s, hs, rfl⟩ := List.mem_map.mp ha
        exact barFree_iff.mp (hb2 s hs)
    clear hb1 hb2 hlen hd he
    induction ks1 generalizing ks2 with
    | nil =>
      cases ks2 with
      | nil => rfl
      | cons => simp at hmap
    | cons s t ih =>
      cases ks2 with
      | nil => simp at hmap
      | cons s2 t2 =>
        simp only [List.map_cons, List.cons.injEq] at hmap
        rw [strData_inj hmap.1, ih t2 hmap.2]
  · intro h
    rw [h]

/-- C10 counterexample: the claim's precondition (no dimension value
contains the substring of two bars, equal tuple lengths) does not rule
out collisions — the tuples `["a|", "b"]` and `["a", "|b"]` satisfy it,
differ, and still get the same RowKey, so the join merges them into a
single ComparisonRecord. -/
theorem c10_claim_false :
    keyFromRow ["d1", "d2"] ⟨some ["a|", "b"], 1, 0, 0, 0⟩ =
      keyFromRow ["d1", "d2"] ⟨some ["a", "|b"], 2, 0, 0, 0⟩
    ∧ (["a|", "b"] : List String) ≠ ["a", "|b"]
    ∧ (["a|", "b"] : List String).length = (["a", "|b"] : List String).length
    ∧ hasBarBar ("a|") = false ∧ hasBarBar ("b") = false
    ∧ hasBarBar ("a") = false ∧ hasBarBar ("|b") = false
    ∧ (joinRecords ["d1", "d2"] ⟨"", ""⟩ ⟨"", ""⟩ ("prevPeriod")
        [⟨some ["a|", "b"], 1, 0, 0, 0⟩] [⟨some ["a", "|b"], 2, 0, 0, 0⟩]).length = 1 := by
  refine ⟨by rfl, by decide, by rfl, by rfl, by rfl, by rfl, by rfl, by rfl⟩

/-- C10 amended: the RowKey is the row's `keys` array joined with `||`
and the `dimensions` argument is ignored; under the stronger precondition
that no dimension value contains the bar character at all (and equal
tuple lengths), two rows get equal RowKeys iff their key tuples are
element-wise equal. -/
theorem c10_key_join (dims dims2 : List String) (r1 r2 : GscQueryRow)
    (ks1 ks2 : List String) (hk1 : r1.keys = some ks1) (hk2 : r2.keys = some ks2)
    (hlen : ks1.length = ks2.length)
    (hb1 : ∀ s ∈ ks1, barFree s = true) (hb2 : ∀ s ∈ ks2, barFree s = true) :
    keyFromRow dims r1 = keyFromRow dims2 r1
    ∧ (keyFromRow dims r1 = keyFromRow dims r2 ↔ ks1 = ks2) := by
  constructor
  · rfl
  · simp only [keyFromRow, hk1, hk2, Option.getD_some]
    exact joinKeys_inj ks1 ks2 hlen hb1 hb2

/-- C10 witness: the amended key-join theorem at a bar-free two-column
example. -/
theorem c10_key_join_w :
    keyFromRow ["x"] ⟨some ["a", "b"], 0, 0, 0, 0⟩ =
      keyFromRow ["y", "z"] ⟨some ["a", "b"], 0, 0, 0, 0⟩
    ∧ (keyFromRow ["x"] ⟨some ["a", "b"], 0, 0, 0, 0⟩ =
        keyFromRow ["x"] ⟨some ["a", "c"], 0, 0, 0, 0⟩ ↔
        (["a", "b"] : List String) = ["a", "c"]) :=
  c10_key_join ["x"] ["y", "z"] ⟨some ["a", "b"], 0, 0, 0, 0⟩ ⟨some ["a", "c"], 0, 0, 0, 0⟩
    ["a", "b"] ["a", "c"] rfl rfl rfl (by decide) (by decide)

end GSC
